import Mathlib

/-!
Shallow embedding of the adaptive-filtering core of `bglid/ANC-adaptive-filters`.

Machine reals (numpy float64) are modelled by exact rationals `ℚ` for the
algebraic operations, and by `ℝ` where a logarithm is involved (`SNR`).
1-D numpy arrays are Lean lists; a general numpy array is a `shape` plus the
flat `data` (row-major), which is all that `ravel`/`ndim` need.

Sources embedded:
  * `src/adaptive_filter/filter_models/filter_model.py` (`FilterModel.filter`,
    `noise_estimate`, `error`, `update_step`)
  * `src/adaptive_filter/algorithms/nlms.py` (`NLMS.update_step`)
  * `src/adaptive_filter/utils/evaluation.py` (`EvaluationSuite.MSE`, `SNR`)
  * `src/adaptive_filter/evaluation.py` (`select_algorithm`)
-/

namespace ANC

/-- A numpy ndarray over exact rationals: its shape and its flat (row-major)
element list.  Only `ravel` and `ndim` of the general case are exercised by
`FilterModel.filter`. -/
structure NDArray where
  shape : List Nat
  data : List ℚ
  deriving DecidableEq

/-- Embeds `a.ndim` — the number of axes. -/
def NDArray.ndim (a : NDArray) : Nat := a.shape.length

/-- Embeds `np.ravel`: flatten to a 1-D array holding the same elements. -/
def NDArray.ravel (a : NDArray) : NDArray := ⟨[a.data.length], a.data⟩

/-- Build a 1-D array from a list (what a caller passing a plain signal does). -/
def NDArray.of1D (l : List ℚ) : NDArray := ⟨[l.length], l⟩

/-- Embeds `np.mean` on a 1-D array (sum divided by length; `ℚ` division by zero
gives `0` for the empty array, where numpy would emit `nan`). -/
def np_mean (l : List ℚ) : ℚ := l.sum / l.length

/-- Elementwise `-` of two equal-length 1-D arrays. -/
def np_sub (a b : List ℚ) : List ℚ := List.zipWith (· - ·) a b

/-- Elementwise `+` of two equal-length 1-D arrays (numpy `+=`). -/
def np_add (a b : List ℚ) : List ℚ := List.zipWith (· + ·) a b

/-- Embeds `np.dot` of two equal-length 1-D arrays. -/
def np_dot (a b : List ℚ) : ℚ := (List.zipWith (· * ·) a b).sum

/-- Embeds `np.linalg.norm(x) ** 2` — in exact arithmetic the squared Euclidean
norm is the sum of squares. -/
def norm_sq (l : List ℚ) : ℚ := (l.map (fun v => v * v)).sum

/-- Embeds `np.roll(v, 1)`: circular right shift by one (the last element wraps to
the front). -/
def np_roll1 : List ℚ → List ℚ
  | [] => []
  | a :: t => ((a :: t).getLastD 0) :: (a :: t).dropLast

/-- Embeds `v[0] = a` — overwrite position 0.  On an empty array numpy raises
`IndexError`; the loop theorems therefore assume a window of positive
length `0 < N`, matching every in-repo configuration. -/
def set0 (v : List ℚ) (a : ℚ) : List ℚ :=
  match v with
  | [] => []
  | _ :: t => a :: t

namespace EvaluationSuite

/-- Embeds `EvaluationSuite.MSE` from `src/adaptive_filter/utils/evaluation.py`:
`np.mean(desired_signal - input_signal) ** 2` — the square of the mean of
the elementwise differences. -/
def MSE (desired_signal input_signal : List ℚ) : ℚ :=
  (np_mean (np_sub desired_signal input_signal)) ^ 2

end EvaluationSuite

/-- The textbook mean-squared error, written from the spec's words
("the mean of squared differences") to compare against `MSE`. -/
def textbookMSE (a b : List ℚ) : ℚ :=
  np_mean ((np_sub a b).map (fun v => v * v))

namespace NLMS

/-- Embeds `self.eps`, fixed at construction in `src/adaptive_filter/algorithms/nlms.py`. -/
def eps : ℚ := 1 / 1000000

/-- Embeds `NLMS.update_step`: `p = eps + ||x_n||**2`; returns `(mu / p) * e_n * x_n`
(scalar times the window vector).  `self.p` is stored but never read back, so
it is not part of the state here. -/
def update_step (mu : ℚ) (e_n : ℚ) (x_n : List ℚ) : List ℚ :=
  let p := eps + norm_sq x_n
  x_n.map (fun v => (mu / p) * e_n * v)

end NLMS

namespace FilterModel

/-- Base-class `FilterModel.update_step`: returns `np.zeros(len(x_n))`. -/
def update_step (_e_n : ℚ) (x_n : List ℚ) : List ℚ :=
  List.replicate x_n.length 0

/-- The validation prelude of `FilterModel.filter` for one input:
`a = np.asarray(a).ravel()`, then `raise ValueError` if `a.ndim != 1`.
Note the ravel happens first. -/
def validate1D (a : NDArray) (msg : String) : Except String (List ℚ) :=
  let a' := a.ravel
  if a'.ndim ≠ 1 then .error msg else .ok a'.data

/-- The two-step truncation of `FilterModel.filter` (lines 107–112):
first clip `x` to `len(d)`, then clip both `d` and `x` to `len(clean)`.
Returns the final `(d, x)`. -/
def truncate (d x clean : List ℚ) : List ℚ × List ℚ :=
  let x1 := if d.length < x.length then x.take d.length else x
  if clean.length < d.length then (d.take clean.length, x1.take clean.length)
  else (d, x1)

/-- The per-sample loop of `FilterModel.filter` (lines 129–143), with the
strategy's `update_step` passed in as `u` and the loop state carried
explicitly.  Each step: roll the circular buffer, write the newest sample at
position 0, predict `y = np.dot(W, buf)`, form `e = d_n - y`, and apply
`W += u e buf` before the next sample.  Returns `(error, noise_estimate)`. -/
def filterSteps (u : ℚ → List ℚ → List ℚ) :
    List (ℚ × ℚ) → List ℚ → List ℚ → List ℚ × List ℚ
  | [], _, _ => ([], [])
  | (d_n, x_n) :: rest, W, buf =>
    let buf' := set0 (np_roll1 buf) x_n
    let y := np_dot W buf'
    let e := d_n - y
    let W' := np_add W (u e buf')
    let r := filterSteps u rest W' buf'
    (e :: r.1, y :: r.2)

/-- Embeds `FilterModel.filter` (metrics disabled): the weights are freshly
reinitialized from the invocation's random draw `initW` (scaled by `0.001`,
line 89–90) — the previous `self.W` (`W_prev`) is overwritten unread; the
three inputs are raveled and dimension-checked; the two-step truncation is
applied; the loop runs for `num_samples = len(x)` samples over a zero
circular buffer of length `N`. -/
def filter (u : ℚ → List ℚ → List ℚ) (W_prev : List ℚ) (initW : List ℚ)
    (N : Nat) (d x clean_signal : NDArray) :
    Except String (List ℚ × List ℚ) := do
  let _ := W_prev
  let W0 := initW.map (fun w => w * (1 / 1000))
  let d1 ← validate1D d "Expected desired signal to be 1D"
  let x1 ← validate1D x "Expected input signal to be 1D"
  let c1 ← validate1D clean_signal "Expected clean signal to be 1D"
  let (d2, x2) := truncate d1 x1 c1
  return filterSteps u (d2.zip x2) W0 (List.replicate N 0)

/-- The window contents before processing sample `n` of the pair list `l`
(desired, reference), starting from the initial buffer `buf`: the loop's
`circ_buffer` after `n` roll-and-write pushes. -/
def bufAt (l : List (ℚ × ℚ)) (buf : List ℚ) : Nat → List ℚ
  | 0 => buf
  | n + 1 => set0 (np_roll1 (bufAt l buf n)) (l.getD n (0, 0)).2

/-- The weight vector before processing sample `n`: `Wat u l W buf 0 = W`,
and each step adds the strategy's `u e win` where `win` is the freshly
pushed window and `e` the prediction error there. -/
def Wat (u : ℚ → List ℚ → List ℚ) (l : List (ℚ × ℚ)) (W buf : List ℚ) :
    Nat → List ℚ
  | 0 => W
  | n + 1 =>
    let win := bufAt l buf (n + 1)
    let e := (l.getD n (0, 0)).1 - np_dot (Wat u l W buf n) win
    np_add (Wat u l W buf n) (u e win)

end FilterModel

/-- Embeds `np.mean` over machine reals, modelled on `ℝ` for the metrics that take a
logarithm. -/
noncomputable def np_meanR (l : List ℝ) : ℝ := l.sum / l.length

namespace EvaluationSuite

/-- Embeds `EvaluationSuite.SNR` from `src/adaptive_filter/utils/evaluation.py`:
`signal_power = np.mean(desired**2)`, `noise_power = np.mean(noisy**2)`,
`snr = signal_power / (noise_power + 1e-10)`, returning
`10 * np.log10(snr + 1e-10)`. -/
noncomputable def SNR (desired_signal noisy_signal : List ℝ) : ℝ :=
  let signal_power := np_meanR (desired_signal.map (fun v => v ^ 2))
  let noise_power := np_meanR (noisy_signal.map (fun v => v ^ 2))
  let snr := signal_power / (noise_power + 1 / 10 ^ 10)
  10 * Real.logb 10 (snr + 1 / 10 ^ 10)

end EvaluationSuite

/-- A configured filter instance as produced by the factory: the algorithm
tag and the hyperparameters it stores.  (`block_size` is `none` for the
sample-by-sample algorithms, which do not take one.) -/
structure FilterInstance where
  algorithm : String
  mu : ℚ
  N : Int
  block_size : Option Int := none
  deriving DecidableEq

/-- Modelled from the spec: `lms.LMS(mu, n)` — `algorithms/lms.py` is not
among the provided sources.  Per §6 the factory maps the identifier plus
hyperparameters to a configured instance; like the in-source `nlms.py`
constructor, construction stores the hyperparameters and performs no
validation. -/
def mkLMS (mu : ℚ) (n : Int) : FilterInstance := ⟨"LMS", mu, n, none⟩

/-- Embeds `nlms.NLMS(mu, n)` from `src/adaptive_filter/algorithms/nlms.py`: stores
`mu`, `N`, the tag, and the constants `eps`, `p` (held in `NLMS.eps`); no
validation is performed. -/
def mkNLMS (mu : ℚ) (n : Int) : FilterInstance := ⟨"NLMS", mu, n, none⟩

/-- Modelled from the spec: `rls.RLS(mu, n)` — `algorithms/rls.py` is not
among the provided sources; modelled like `mkLMS`. -/
def mkRLS (mu : ℚ) (n : Int) : FilterInstance := ⟨"RLS", mu, n, none⟩

/-- Modelled from the spec: `apa.APA(mu, n, block_size)` —
`algorithms/apa.py` is not among the provided sources; per §6/§7 the factory
only wires hyperparameters, and §7 places validation before the
sample/block loop (not in the constructor), so construction stores the
hyperparameters. -/
def mkAPA (mu : ℚ) (n : Int) (block_size : Int) : FilterInstance :=
  ⟨"APA", mu, n, some block_size⟩

/-- Modelled from the spec: `fd_lms.FDLMS(mu, n, block_size)` — not among the
provided sources; modelled like `mkAPA`. -/
def mkFDLMS (mu : ℚ) (n : Int) (block_size : Int) : FilterInstance :=
  ⟨"FDLMS", mu, n, some block_size⟩

/-- Modelled from the spec: `fd_nlms.FDNLMS(mu, n, block_size)` — not among
the provided sources; modelled like `mkAPA`. -/
def mkFDNLMS (mu : ℚ) (n : Int) (block_size : Int) : FilterInstance :=
  ⟨"FDNLMS", mu, n, some block_size⟩

/-- Embeds `select_algorithm` from `src/adaptive_filter/evaluation.py` (lines
78–132): both dictionaries are built eagerly (every constructor runs), an
identifier in neither raises `ValueError`, and otherwise the matching
instance is returned.  The final `.error` branch is Python's unbound
`af_filter` at `return`, which is unreachable after the membership check. -/
def select_algorithm (filter_order : Int) (mu : ℚ) (algorithm : String)
    (block_size : Int) : Except String FilterInstance :=
  let algos : List (String × FilterInstance) :=
    [("LMS", mkLMS mu filter_order), ("NLMS", mkNLMS mu filter_order),
     ("RLS", mkRLS mu filter_order)]
  let block_algos : List (String × FilterInstance) :=
    [("APA", mkAPA mu filter_order block_size),
     ("FDLMS", mkFDLMS mu filter_order block_size),
     ("FDNLMS", mkFDNLMS mu filter_order block_size)]
  if (algos.lookup algorithm).isNone && (block_algos.lookup algorithm).isNone then
    .error ("Uknown algorithm: " ++ algorithm)
  else
    match algos.lookup algorithm with
    | some f => .ok f
    | none =>
      match block_algos.lookup algorithm with
      | some f => .ok f
      | none => .error "unbound af_filter"

/-- The six identifiers the factory recognizes. -/
def supportedAlgorithms : List String :=
  ["LMS", "NLMS", "RLS", "APA", "FDLMS", "FDNLMS"]

theorem np_roll1_length (v : List ℚ) : (np_roll1 v).length = v.length := by
  cases v with
  | nil => rfl
  | cons a t => simp [np_roll1]

theorem set0_length (v : List ℚ) (a : ℚ) : (set0 v a).length = v.length := by
  cases v <;> rfl

theorem filterSteps_fst_length (u : ℚ → List ℚ → List ℚ) (l : List (ℚ × ℚ)) :
    ∀ W buf : List ℚ, (FilterModel.filterSteps u l W buf).1.length = l.length := by
  induction l with
  | nil => intro W buf; rfl
  | cons p rest ih =>
    intro W buf
    cases p with
    | mk dn xn => simp [FilterModel.filterSteps, ih]

theorem filterSteps_snd_length (u : ℚ → List ℚ → List ℚ) (l : List (ℚ × ℚ)) :
    ∀ W buf : List ℚ, (FilterModel.filterSteps u l W buf).2.length = l.length := by
  induction l with
  | nil => intro W buf; rfl
  | cons p rest ih =>
    intro W buf
    cases p with
    | mk dn xn => simp [FilterModel.filterSteps, ih]

theorem truncate_fst_length (d x c : List ℚ) :
    (FilterModel.truncate d x c).1.length = min d.length c.length := by
  simp only [FilterModel.truncate]
  split_ifs <;> simp [List.length_take] <;> omega

theorem truncate_snd_length (d x c : List ℚ) :
    (FilterModel.truncate d x c).2.length = min (min d.length x.length) c.length := by
  simp only [FilterModel.truncate]
  split_ifs <;> simp [List.length_take] <;> omega

theorem validate1D_ok (a : NDArray) (msg : String) :
    FilterModel.validate1D a msg = .ok a.data := by
  simp [FilterModel.validate1D, NDArray.ravel, NDArray.ndim]

theorem filter_eq (u : ℚ → List ℚ → List ℚ) (W_prev initW : List ℚ) (N : Nat)
    (d x clean : NDArray) :
    FilterModel.filter u W_prev initW N d x clean =
      .ok (FilterModel.filterSteps u
            ((FilterModel.truncate d.data x.data clean.data).1.zip
              (FilterModel.truncate d.data x.data clean.data).2)
            (initW.map (fun w => w * (1 / 1000))) (List.replicate N 0)) := by
  simp [FilterModel.filter, validate1D_ok, Except.bind, bind, pure, Except.pure]

/-- C1: for every triple of inputs `d`, `x`, `clean` (each flattenable to
1-D) and a positive order `N`, `FilterModel.filter` returns `error` and
`noise_estimate` sequences whose common length is
`min (len d) (min (len x)) (len clean)` — the length produced by first
clipping the reference to the desired length and then clipping both to the
clean length. -/
theorem C1_filter_output_lengths (u : ℚ → List ℚ → List ℚ)
    (W_prev initW : List ℚ) (N : Nat) (hN : 0 < N) (d x clean : NDArray) :
    ∃ err yest,
      FilterModel.filter u W_prev initW N d x clean = .ok (err, yest) ∧
      err.length = min (min d.data.length x.data.length) clean.data.length ∧
      yest.length = min (min d.data.length x.data.length) clean.data.length := by
  refine ⟨_, _, filter_eq u W_prev initW N d x clean, ?_, ?_⟩
  · rw [filterSteps_fst_length, List.length_zip, truncate_fst_length,
      truncate_snd_length]
    omega
  · rw [filterSteps_snd_length, List.length_zip, truncate_fst_length,
      truncate_snd_length]
    omega

/-- Witness for C1 at a concrete input: `d` of length 2, `x` of length 3,
`clean` of length 2, order `N = 1`. -/
theorem C1_witness :
    (0 : Nat) < 1 ∧
    ∃ err yest,
      FilterModel.filter FilterModel.update_step [] [1] 1
          (NDArray.of1D [5, 6]) (NDArray.of1D [1, 2, 3])
          (NDArray.of1D [7, 8]) = .ok (err, yest) ∧
      err.length =
        min (min (NDArray.of1D [5, 6]).data.length
          (NDArray.of1D [1, 2, 3]).data.length)
          (NDArray.of1D ([7, 8] : List ℚ)).data.length ∧
      yest.length =
        min (min (NDArray.of1D [5, 6]).data.length
          (NDArray.of1D [1, 2, 3]).data.length)
          (NDArray.of1D ([7, 8] : List ℚ)).data.length :=
  ⟨by decide,
    C1_filter_output_lengths FilterModel.update_step [] [1] 1 (by decide)
      (NDArray.of1D [5, 6]) (NDArray.of1D [1, 2, 3]) (NDArray.of1D [7, 8])⟩

theorem set0_roll1 (v : List ℚ) (hv : v ≠ []) (a : ℚ) :
    set0 (np_roll1 v) a = a :: v.dropLast := by
  cases v with
  | nil => exact absurd rfl hv
  | cons b t => rfl

theorem bufAt_length (l : List (ℚ × ℚ)) (buf : List ℚ) :
    ∀ n, (FilterModel.bufAt l buf n).length = buf.length := by
  intro n
  induction n with
  | zero => rfl
  | succ n ih => simp [FilterModel.bufAt, set0_length, np_roll1_length, ih]

theorem bufAt_cons (p : ℚ × ℚ) (l : List (ℚ × ℚ)) (buf : List ℚ) :
    ∀ n, FilterModel.bufAt (p :: l) buf (n + 1) =
      FilterModel.bufAt l (set0 (np_roll1 buf) p.2) n := by
  intro n
  induction n with
  | zero => rfl
  | succ n ih =>
    show set0 (np_roll1 (FilterModel.bufAt (p :: l) buf (n + 1)))
        (l.getD n (0, 0)).2 =
      set0 (np_roll1 (FilterModel.bufAt l (set0 (np_roll1 buf) p.2) n))
        (l.getD n (0, 0)).2
    rw [ih]

theorem Wat_cons (u : ℚ → List ℚ → List ℚ) (p : ℚ × ℚ) (l : List (ℚ × ℚ))
    (W buf : List ℚ) :
    ∀ n, FilterModel.Wat u (p :: l) W buf (n + 1) =
      FilterModel.Wat u l
        (np_add W (u (p.1 - np_dot W (set0 (np_roll1 buf) p.2))
          (set0 (np_roll1 buf) p.2)))
        (set0 (np_roll1 buf) p.2) n := by
  intro n
  induction n with
  | zero => rfl
  | succ n ih =>
    show np_add (FilterModel.Wat u (p :: l) W buf (n + 1))
        (u ((l.getD n (0, 0)).1 -
            np_dot (FilterModel.Wat u (p :: l) W buf (n + 1))
              (FilterModel.bufAt (p :: l) buf (n + 2)))
          (FilterModel.bufAt (p :: l) buf (n + 2))) =
      np_add (FilterModel.Wat u l
          (np_add W (u (p.1 - np_dot W (set0 (np_roll1 buf) p.2))
            (set0 (np_roll1 buf) p.2)))
          (set0 (np_roll1 buf) p.2) n)
        (u ((l.getD n (0, 0)).1 -
            np_dot (FilterModel.Wat u l
                (np_add W (u (p.1 - np_dot W (set0 (np_roll1 buf) p.2))
                  (set0 (np_roll1 buf) p.2)))
                (set0 (np_roll1 buf) p.2) n)
              (FilterModel.bufAt l (set0 (np_roll1 buf) p.2) (n + 1)))
          (FilterModel.bufAt l (set0 (np_roll1 buf) p.2) (n + 1)))
    rw [ih, bufAt_cons]

theorem filterSteps_getElem (u : ℚ → List ℚ → List ℚ) :
    ∀ (n : Nat) (l : List (ℚ × ℚ)) (W buf : List ℚ), n < l.length →
      (FilterModel.filterSteps u l W buf).2[n]? =
        some (np_dot (FilterModel.Wat u l W buf n)
          (FilterModel.bufAt l buf (n + 1))) ∧
      (FilterModel.filterSteps u l W buf).1[n]? =
        some ((l.getD n (0, 0)).1 -
          np_dot (FilterModel.Wat u l W buf n)
            (FilterModel.bufAt l buf (n + 1))) := by
  intro n
  induction n with
  | zero =>
    intro l W buf h
    cases l with
    | nil => simp at h
    | cons p rest =>
      refine ⟨?_, ?_⟩ <;>
        simp [FilterModel.filterSteps, FilterModel.Wat, FilterModel.bufAt]
  | succ n ih =>
    intro l W buf h
    cases l with
    | nil => simp at h
    | cons p rest =>
      have h' : n < rest.length := by
        simpa using h
      have hrec := ih rest
        (np_add W (u (p.1 - np_dot W (set0 (np_roll1 buf) p.2))
          (set0 (np_roll1 buf) p.2)))
        (set0 (np_roll1 buf) p.2) h'
      refine ⟨?_, ?_⟩ <;>
        simp [FilterModel.filterSteps, Wat_cons, bufAt_cons, hrec.1, hrec.2]

theorem zip_getD_fst (d x : List ℚ) :
    ∀ n, n < d.length → n < x.length →
      ((d.zip x).getD n (0, 0)).1 = d.getD n 0 := by
  induction d generalizing x with
  | nil => intro n h1 _; simp at h1
  | cons a d' ih =>
    intro n h1 h2
    cases x with
    | nil => simp at h2
    | cons b x' =>
      cases n with
      | zero => rfl
      | succ n =>
        simp only [List.zip_cons_cons, List.getD_cons_succ]
        exact ih x' n (by simpa using h1) (by simpa using h2)

theorem zip_getD_snd (d x : List ℚ) :
    ∀ n, n < d.length → n < x.length →
      ((d.zip x).getD n (0, 0)).2 = x.getD n 0 := by
  induction d generalizing x with
  | nil => intro n h1 _; simp at h1
  | cons a d' ih =>
    intro n h1 h2
    cases x with
    | nil => simp at h2
    | cons b x' =>
      cases n with
      | zero => rfl
      | succ n =>
        simp only [List.zip_cons_cons, List.getD_cons_succ]
        exact ih x' n (by simpa using h1) (by simpa using h2)

/-- C2: for every sample index `n` below the (truncated) length, the
streaming loop emits `y[n] = np.dot(W_n, window_n)` (position-aligned inner
product with the window holding `x[n]` as newest tap), emits
`e[n] = d[n] - y[n]`, and the weights used for sample `n + 1` are
`W_{n+1} = W_n + u (e[n]) window_n` — the update is applied immediately
after sample `n`. -/
theorem C2_streaming_step (u : ℚ → List ℚ → List ℚ) (d x W0 : List ℚ)
    (N : Nat) (hN : 0 < N) (n : Nat) (hn : n < x.length)
    (hdx : x.length ≤ d.length) :
    (FilterModel.filterSteps u (d.zip x) W0 (List.replicate N 0)).2[n]? =
      some (np_dot (FilterModel.Wat u (d.zip x) W0 (List.replicate N 0) n)
        (FilterModel.bufAt (d.zip x) (List.replicate N 0) (n + 1))) ∧
    (FilterModel.filterSteps u (d.zip x) W0 (List.replicate N 0)).1[n]? =
      some (d.getD n 0 -
        np_dot (FilterModel.Wat u (d.zip x) W0 (List.replicate N 0) n)
          (FilterModel.bufAt (d.zip x) (List.replicate N 0) (n + 1))) ∧
    FilterModel.Wat u (d.zip x) W0 (List.replicate N 0) (n + 1) =
      np_add (FilterModel.Wat u (d.zip x) W0 (List.replicate N 0) n)
        (u (d.getD n 0 -
            np_dot (FilterModel.Wat u (d.zip x) W0 (List.replicate N 0) n)
              (FilterModel.bufAt (d.zip x) (List.replicate N 0) (n + 1)))
          (FilterModel.bufAt (d.zip x) (List.replicate N 0) (n + 1))) := by
  have hlen : n < (d.zip x).length := by
    rw [List.length_zip]; omega
  have hfst : ((d.zip x).getD n (0, 0)).1 = d.getD n 0 :=
    zip_getD_fst d x n (by omega) hn
  have hmain := filterSteps_getElem u n (d.zip x) W0 (List.replicate N 0) hlen
  refine ⟨hmain.1, by rw [hmain.2, hfst], ?_⟩
  show np_add (FilterModel.Wat u (d.zip x) W0 (List.replicate N 0) n)
      (u (((d.zip x).getD n (0, 0)).1 -
          np_dot (FilterModel.Wat u (d.zip x) W0 (List.replicate N 0) n)
            (FilterModel.bufAt (d.zip x) (List.replicate N 0) (n + 1)))
        (FilterModel.bufAt (d.zip x) (List.replicate N 0) (n + 1))) = _
  rw [hfst]

/-- Witness for C2 at `d = [1]`, `x = [2]`, `W0 = [3]`, `N = 1`, `n = 0`,
with the base-class zero update. -/
theorem C2_witness :
    (FilterModel.filterSteps FilterModel.update_step
        (List.zip [1] [2]) [3] (List.replicate 1 0)).2[0]? =
      some (np_dot (FilterModel.Wat FilterModel.update_step
          (List.zip [1] [2]) [3] (List.replicate 1 0) 0)
        (FilterModel.bufAt (List.zip [1] [2]) (List.replicate 1 0) 1)) ∧
    (FilterModel.filterSteps FilterModel.update_step
        (List.zip [1] [2]) [3] (List.replicate 1 0)).1[0]? =
      some (List.getD [1] 0 0 -
        np_dot (FilterModel.Wat FilterModel.update_step
            (List.zip [1] [2]) [3] (List.replicate 1 0) 0)
          (FilterModel.bufAt (List.zip [1] [2]) (List.replicate 1 0) 1)) ∧
    FilterModel.Wat FilterModel.update_step
        (List.zip [1] [2]) [3] (List.replicate 1 0) 1 =
      np_add (FilterModel.Wat FilterModel.update_step
          (List.zip [1] [2]) [3] (List.replicate 1 0) 0)
        (FilterModel.update_step (List.getD [1] 0 0 -
            np_dot (FilterModel.Wat FilterModel.update_step
                (List.zip [1] [2]) [3] (List.replicate 1 0) 0)
              (FilterModel.bufAt (List.zip [1] [2]) (List.replicate 1 0) 1))
          (FilterModel.bufAt (List.zip [1] [2]) (List.replicate 1 0) 1)) :=
  C2_streaming_step FilterModel.update_step [1] [2] [3] 1 (by decide) 0
    (by decide) (by decide)

theorem replicate_ne_nil (N : Nat) (hN : 0 < N) :
    (List.replicate N (0 : ℚ)) ≠ [] := by
  cases N with
  | zero => omega
  | succ m => simp

theorem bufAt_get (l : List (ℚ × ℚ)) (N : Nat) (hN : 0 < N) :
    ∀ n, n < l.length → ∀ i, i < N →
      (FilterModel.bufAt l (List.replicate N 0) (n + 1))[i]? =
        some (if i < min (n + 1) N then (l.getD (n - i) (0, 0)).2 else 0) := by
  intro n
  induction n with
  | zero =>
    intro _ i hi
    have hb : FilterModel.bufAt l (List.replicate N 0) 1 =
        (l.getD 0 (0, 0)).2 :: (List.replicate N (0 : ℚ)).dropLast :=
      set0_roll1 _ (replicate_ne_nil N hN) _
    rw [hb]
    cases i with
    | zero => simp [Nat.lt_min, hN]
    | succ j =>
      have hcond : ¬ (j + 1 < min 1 N) := by omega
      simp only [List.getElem?_cons_succ, List.dropLast_replicate, hcond,
        if_false]
      rw [List.getElem?_replicate_of_lt (by omega)]
  | succ n ih =>
    intro hn i hi
    have hn' : n < l.length := by omega
    have hbne : FilterModel.bufAt l (List.replicate N 0) (n + 1) ≠ [] := by
      intro hemp
      have hl := bufAt_length l (List.replicate N 0) (n + 1)
      rw [hemp] at hl
      simp at hl
      omega
    have hb : FilterModel.bufAt l (List.replicate N 0) (n + 2) =
        (l.getD (n + 1) (0, 0)).2 ::
          (FilterModel.bufAt l (List.replicate N 0) (n + 1)).dropLast :=
      set0_roll1 _ hbne _
    rw [hb]
    cases i with
    | zero =>
      have hcond : 0 < min (n + 2) N := by omega
      simp [hcond]
    | succ j =>
      have hjN : j < N := by omega
      have hlenb : (FilterModel.bufAt l (List.replicate N 0) (n + 1)).length
          = N := by
        rw [bufAt_length]; simp
      rw [List.getElem?_cons_succ, List.dropLast_eq_take, hlenb,
        List.getElem?_take_of_lt (by omega), ih hn' j hjN]
      have harith : n - j = n + 1 - (j + 1) := by omega
      rw [harith]
      by_cases hc : j < min (n + 1) N
      · have hc2 : j + 1 < min (n + 2) N := by omega
        simp [hc, hc2]
      · have hc2 : ¬ (j + 1 < min (n + 2) N) := by omega
        simp [hc, hc2]

/-- C7: after processing sample `n`, the `N`-length window holds the inputs
newest-first: position `i` holds `x[n - i]` for `i < min (n + 1) N` and the
initial zero padding otherwise; in particular position `0` holds `x[n]` and
the oldest tap has been dropped. -/
theorem C7_window_newest_first (d x : List ℚ) (N : Nat) (hN : 0 < N)
    (n : Nat) (hn : n < x.length) (hdx : x.length ≤ d.length)
    (i : Nat) (hi : i < N) :
    (FilterModel.bufAt (d.zip x) (List.replicate N 0) (n + 1)).length = N ∧
    (FilterModel.bufAt (d.zip x) (List.replicate N 0) (n + 1))[i]? =
      some (if i < min (n + 1) N then x.getD (n - i) 0 else 0) := by
  constructor
  · rw [bufAt_length]; simp
  · have hlen : n < (d.zip x).length := by
      rw [List.length_zip]; omega
    rw [bufAt_get (d.zip x) N hN n hlen i hi]
    have hsnd : ((d.zip x).getD (n - i) (0, 0)).2 = x.getD (n - i) 0 :=
      zip_getD_snd d x (n - i) (by omega) (by omega)
    rw [hsnd]

/-- Witness for C7 at `d = [5, 6]`, `x = [7, 8]`, `N = 2`, `n = 1`, `i = 1`:
the window after two samples is `[x[1], x[0]]`. -/
theorem C7_witness :
    (FilterModel.bufAt (List.zip [5, 6] [7, 8]) (List.replicate 2 0) 2).length
      = 2 ∧
    (FilterModel.bufAt (List.zip [5, 6] [7, 8]) (List.replicate 2 0) 2)[1]? =
      some (if 1 < min 2 2 then List.getD [7, 8] (1 - 1) 0 else 0) :=
  C7_window_newest_first [5, 6] [7, 8] 2 (by decide) 1 (by decide) (by decide)
    1 (by decide)

theorem Wat_length (u : ℚ → List ℚ → List ℚ)
    (hu : ∀ e w, (u e w).length = w.length) (l : List (ℚ × ℚ))
    (W buf : List ℚ) (hWb : W.length = buf.length) :
    ∀ k, (FilterModel.Wat u l W buf k).length = W.length := by
  intro k
  induction k with
  | zero => rfl
  | succ k ih =>
    show (np_add (FilterModel.Wat u l W buf k) _).length = W.length
    rw [np_add, List.length_zipWith, hu, bufAt_length, ih, hWb]
    omega

/-- C8: with a length-preserving update strategy `u` and a fresh random
draw `initW` of length `N`, (i) the run's initial weights are exactly the
draw scaled by `0.001` (small, near zero, non-degenerate whenever the draw
is), (ii) the weight vector has length `N` before every sample, and
(iii) `FilterModel.filter` ignores whatever weight state `W_prev` was left
by an earlier run on the same instance. -/
theorem C8_fresh_weights (u : ℚ → List ℚ → List ℚ)
    (hu : ∀ e w, (u e w).length = w.length) (initW : List ℚ) (N : Nat)
    (hW : initW.length = N) (d x : List ℚ) (W_prev W_prev' : List ℚ)
    (dA xA cA : NDArray) :
    FilterModel.Wat u (d.zip x) (initW.map (fun w => w * (1 / 1000)))
        (List.replicate N 0) 0 = initW.map (fun w => w * (1 / 1000)) ∧
    (∀ k, (FilterModel.Wat u (d.zip x) (initW.map (fun w => w * (1 / 1000)))
        (List.replicate N 0) k).length = N) ∧
    FilterModel.filter u W_prev initW N dA xA cA =
      FilterModel.filter u W_prev' initW N dA xA cA := by
  refine ⟨rfl, ?_, ?_⟩
  · intro k
    rw [Wat_length u hu _ _ _ (by simp [hW])]
    simp [hW]
  · rw [filter_eq, filter_eq]

/-- Witness for C8 with the NLMS strategy (`mu = 1`), `initW = [2]`,
`N = 1`. -/
theorem C8_witness :
    FilterModel.Wat (NLMS.update_step 1) (List.zip [1] [2])
        (List.map (fun w => w * (1 / 1000)) [2]) (List.replicate 1 0) 0 =
      List.map (fun w => w * (1 / 1000)) [2] ∧
    (∀ k, (FilterModel.Wat (NLMS.update_step 1) (List.zip [1] [2])
        (List.map (fun w => w * (1 / 1000)) [2])
        (List.replicate 1 0) k).length = 1) ∧
    FilterModel.filter (NLMS.update_step 1) [9] [2] 1 (NDArray.of1D [1])
        (NDArray.of1D [2]) (NDArray.of1D [3]) =
      FilterModel.filter (NLMS.update_step 1) [7] [2] 1 (NDArray.of1D [1])
        (NDArray.of1D [2]) (NDArray.of1D [3]) :=
  C8_fresh_weights (NLMS.update_step 1)
    (by intro e w; simp [NLMS.update_step]) [2] 1 (by decide) [1] [2]
    [9] [7] (NDArray.of1D [1]) (NDArray.of1D [2]) (NDArray.of1D [3])

/-- C3 (refuting the documented behavior): `FilterModel.filter` ravels each
input *before* testing `ndim != 1`, so the dimension check can never fire —
`validate1D` succeeds on every array, and a concrete 2-D desired signal of
shape `(2, 2)` is silently flattened and filtered to completion (4 output
samples) instead of raising the documented `ValueError`. -/
theorem C3_2d_input_not_rejected :
    (∀ (a : NDArray) (msg : String),
      FilterModel.validate1D a msg = .ok a.data) ∧
    ∃ out,
      FilterModel.filter FilterModel.update_step [] [1] 1
          (⟨[2, 2], [1, 2, 3, 4]⟩ : NDArray) (NDArray.of1D [5, 6, 7, 8])
          (NDArray.of1D [9, 10, 11, 12]) = .ok out ∧
      out.1.length = 4 ∧ out.2.length = 4 := by
  refine ⟨validate1D_ok, _, filter_eq _ _ _ _ _ _ _, ?_, ?_⟩
  · rw [filterSteps_fst_length, List.length_zip, truncate_fst_length,
      truncate_snd_length]
    decide
  · rw [filterSteps_snd_length, List.length_zip, truncate_fst_length,
      truncate_snd_length]
    decide

theorem sum_zipWith_sub (a : List ℚ) :
    ∀ b : List ℚ, a.length = b.length →
      (List.zipWith (· - ·) a b).sum = a.sum - b.sum := by
  induction a with
  | nil =>
    intro b h
    cases b with
    | nil => simp
    | cons y b' => simp at h
  | cons v a' ih =>
    intro b h
    cases b with
    | nil => simp at h
    | cons y b' =>
      simp only [List.zipWith_cons_cons, List.sum_cons,
        ih b' (by simpa using h)]
      ring

/-- C4: `EvaluationSuite.MSE a b` squares the mean of the elementwise
differences — equivalently `((sum a - sum b) / n)^2` — and does *not* agree
with the textbook mean of squared differences. -/
theorem C4_MSE_is_squared_mean_difference :
    (∀ a b : List ℚ, a.length = b.length →
      EvaluationSuite.MSE a b =
        ((List.zipWith (· - ·) a b).sum / a.length) ^ 2) ∧
    (∀ a b : List ℚ, a.length = b.length →
      EvaluationSuite.MSE a b = ((a.sum - b.sum) / a.length) ^ 2) ∧
    ¬ (∀ a b : List ℚ, a.length = b.length →
      EvaluationSuite.MSE a b = textbookMSE a b) := by
  refine ⟨?_, ?_, ?_⟩
  · intro a b h
    simp only [EvaluationSuite.MSE, np_mean, np_sub, List.length_zipWith, h,
      min_self]
  · intro a b h
    simp only [EvaluationSuite.MSE, np_mean, np_sub, List.length_zipWith, h,
      min_self, sum_zipWith_sub a b h]
  · intro hcontra
    exact absurd (hcontra [1, -1] [0, 0] (by decide))
      (by norm_num [EvaluationSuite.MSE, textbookMSE, np_mean, np_sub])

/-- C5: `NLMS.update_step mu e x` is `(mu / (1e-6 + ||x||^2)) * e * x`
componentwise, and at `e = 1`, `x = [3, 4]`, `mu = 1` the denominator is
exactly `25.000001` and the result is within `1e-6` of
`[0.11999995, 0.15999994]`. -/
theorem C5_NLMS_update_step :
    (∀ (mu e : ℚ) (x : List ℚ) (i : Nat), i < x.length →
      (NLMS.update_step mu e x)[i]? =
        some (mu * e * x.getD i 0 / (NLMS.eps + norm_sq x))) ∧
    NLMS.eps + norm_sq [3, 4] = 25000001 / 1000000 ∧
    |(NLMS.update_step 1 1 [3, 4]).getD 0 0 - 11999995 / 100000000| <
      1 / 1000000 ∧
    |(NLMS.update_step 1 1 [3, 4]).getD 1 0 - 15999994 / 100000000| <
      1 / 1000000 := by
  have hp : NLMS.eps + norm_sq [3, 4] = 25000001 / 1000000 := by
    norm_num [NLMS.eps, norm_sq]
  have h0 : (NLMS.update_step 1 1 [3, 4]).getD 0 0 = 3000000 / 25000001 := by
    simp only [NLMS.update_step, hp]
    norm_num
  have h1 : (NLMS.update_step 1 1 [3, 4]).getD 1 0 = 4000000 / 25000001 := by
    simp only [NLMS.update_step, hp]
    norm_num
  refine ⟨?_, hp, ?_, ?_⟩
  case refine_2 =>
    rw [h0, abs_lt]
    constructor <;> norm_num
  case refine_3 =>
    rw [h1, abs_lt]
    constructor <;> norm_num
  intro mu e x i hi
  have hx : x[i]? = some (x.getD i 0) := by
    rw [List.getElem?_eq_getElem hi]
    simp [List.getD_eq_getElem?_getD, List.getElem?_eq_getElem hi]
  simp only [NLMS.update_step, List.getElem?_map, hx, Option.map_some]
  field_simp

theorem np_meanR_sq_nonneg (l : List ℝ) :
    0 ≤ np_meanR (l.map (fun v => v ^ 2)) := by
  unfold np_meanR
  apply div_nonneg
  · apply List.sum_nonneg
    intro v hv
    obtain ⟨w, _, rfl⟩ := List.mem_map.mp hv
    positivity
  · positivity

/-- C6: `EvaluationSuite.SNR` is exactly
`10 * log10(mean(desired^2) / (mean(noisy^2) + 1e-10) + 1e-10)`; the
argument of the logarithm is strictly positive for every pair of inputs
(so no divide-by-zero or log-of-zero ever occurs), and the result is
bounded above by the value the `1e-10` floor yields at zero noise power,
`10 * log10(mean(desired^2) * 1e10 + 1e-10)` — a finite real number. -/
theorem C6_SNR_formula_total_bounded (d n : List ℝ) :
    EvaluationSuite.SNR d n =
      10 * Real.logb 10
        (np_meanR (d.map (fun v => v ^ 2)) /
          (np_meanR (n.map (fun v => v ^ 2)) + 1 / 10 ^ 10) + 1 / 10 ^ 10) ∧
    0 < np_meanR (d.map (fun v => v ^ 2)) /
          (np_meanR (n.map (fun v => v ^ 2)) + 1 / 10 ^ 10) + 1 / 10 ^ 10 ∧
    EvaluationSuite.SNR d n ≤
      10 * Real.logb 10
        (np_meanR (d.map (fun v => v ^ 2)) * 10 ^ 10 + 1 / 10 ^ 10) := by
  have hd : 0 ≤ np_meanR (d.map (fun v => v ^ 2)) := np_meanR_sq_nonneg d
  have hn : 0 ≤ np_meanR (n.map (fun v => v ^ 2)) := np_meanR_sq_nonneg n
  have hdenom : (0 : ℝ) < np_meanR (n.map (fun v => v ^ 2)) + 1 / 10 ^ 10 := by
    positivity
  have hratio : 0 ≤ np_meanR (d.map (fun v => v ^ 2)) /
      (np_meanR (n.map (fun v => v ^ 2)) + 1 / 10 ^ 10) :=
    div_nonneg hd hdenom.le
  have harg : (0 : ℝ) < np_meanR (d.map (fun v => v ^ 2)) /
      (np_meanR (n.map (fun v => v ^ 2)) + 1 / 10 ^ 10) + 1 / 10 ^ 10 := by
    positivity
  refine ⟨rfl, harg, ?_⟩
  show 10 * Real.logb 10 _ ≤ 10 * Real.logb 10 _
  have hle : np_meanR (d.map (fun v => v ^ 2)) /
        (np_meanR (n.map (fun v => v ^ 2)) + 1 / 10 ^ 10) + 1 / 10 ^ 10 ≤
      np_meanR (d.map (fun v => v ^ 2)) * 10 ^ 10 + 1 / 10 ^ 10 := by
    have hstep : np_meanR (d.map (fun v => v ^ 2)) /
          (np_meanR (n.map (fun v => v ^ 2)) + 1 / 10 ^ 10) ≤
        np_meanR (d.map (fun v => v ^ 2)) * 10 ^ 10 := by
      rw [div_le_iff₀ hdenom]
      have hfloor : (1 : ℝ) / 10 ^ 10 ≤
          np_meanR (n.map (fun v => v ^ 2)) + 1 / 10 ^ 10 := by
        linarith
      calc np_meanR (d.map (fun v => v ^ 2)) =
            np_meanR (d.map (fun v => v ^ 2)) * 10 ^ 10 * (1 / 10 ^ 10) := by
              ring
        _ ≤ np_meanR (d.map (fun v => v ^ 2)) * 10 ^ 10 *
            (np_meanR (n.map (fun v => v ^ 2)) + 1 / 10 ^ 10) := by
              apply mul_le_mul_of_nonneg_left hfloor
              positivity
    linarith
  have := Real.logb_le_logb_of_le (by norm_num : (1 : ℝ) < 10) harg hle
  linarith

theorem select_algorithm_ok_of_mem (filter_order : Int) (mu : ℚ)
    (algorithm : String) (block_size : Int)
    (hmem : algorithm ∈ supportedAlgorithms) :
    ∃ inst, select_algorithm filter_order mu algorithm block_size =
      .ok inst := by
  simp only [supportedAlgorithms, List.mem_cons, List.not_mem_nil,
    or_false] at hmem
  rcases hmem with rfl | rfl | rfl | rfl | rfl | rfl
  · exact ⟨mkLMS mu filter_order, rfl⟩
  · exact ⟨mkNLMS mu filter_order, rfl⟩
  · exact ⟨mkRLS mu filter_order, rfl⟩
  · exact ⟨mkAPA mu filter_order block_size, rfl⟩
  · exact ⟨mkFDLMS mu filter_order block_size, rfl⟩
  · exact ⟨mkFDNLMS mu filter_order block_size, rfl⟩

theorem select_algorithm_error_of_not_mem (filter_order : Int) (mu : ℚ)
    (algorithm : String) (block_size : Int)
    (hmem : algorithm ∉ supportedAlgorithms) :
    select_algorithm filter_order mu algorithm block_size =
      .error ("Uknown algorithm: " ++ algorithm) := by
  simp only [supportedAlgorithms, List.mem_cons, List.not_mem_nil, or_false,
    not_or] at hmem
  obtain ⟨h1, h2, h3, h4, h5, h6⟩ := hmem
  have e1 := beq_false_of_ne h1
  have e2 := beq_false_of_ne h2
  have e3 := beq_false_of_ne h3
  have e4 := beq_false_of_ne h4
  have e5 := beq_false_of_ne h5
  have e6 := beq_false_of_ne h6
  simp [select_algorithm, List.lookup, e1, e2, e3, e4, e5, e6]

/-- C9: `select_algorithm` returns a configured instance exactly for the
identifiers `LMS`, `NLMS`, `RLS`, `APA`, `FDLMS`, `FDNLMS`; every other
identifier raises `ValueError`. -/
theorem C9_select_algorithm_dispatch (filter_order : Int) (mu : ℚ)
    (algorithm : String) (block_size : Int) :
    ((∃ inst, select_algorithm filter_order mu algorithm block_size =
        .ok inst) ↔ algorithm ∈ supportedAlgorithms) ∧
    (algorithm ∉ supportedAlgorithms →
      select_algorithm filter_order mu algorithm block_size =
        .error ("Uknown algorithm: " ++ algorithm)) := by
  constructor
  · constructor
    · rintro ⟨inst, hinst⟩
      by_contra hmem
      rw [select_algorithm_error_of_not_mem filter_order mu algorithm
        block_size hmem] at hinst
      exact Except.noConfusion hinst
    · exact select_algorithm_ok_of_mem filter_order mu algorithm block_size
  · exact select_algorithm_error_of_not_mem filter_order mu algorithm
      block_size

/-- C10 counterexample: configuring `NLMS` with the non-positive order
`N = 0` and the non-positive `block_size = 0` (the repository's own default)
succeeds — `select_algorithm` raises no configuration error. -/
theorem C10_counterexample_no_validation :
    select_algorithm 0 1 "NLMS" 0 = .ok (mkNLMS 1 0) := by
  simp [select_algorithm, List.lookup]

/-- C10 amended: `select_algorithm` performs no hyperparameter validation at
all — for every supported identifier it returns a configured instance even
when the order and the block size are non-positive; the only configuration
error it can raise is an unknown identifier. -/
theorem C10_nonpositive_config_accepted (filter_order : Int) (mu : ℚ)
    (algorithm : String) (block_size : Int) (hfo : filter_order ≤ 0)
    (hbs : block_size ≤ 0) (hmem : algorithm ∈ supportedAlgorithms) :
    ∃ inst, select_algorithm filter_order mu algorithm block_size =
      .ok inst :=
  select_algorithm_ok_of_mem filter_order mu algorithm block_size hmem

/-- Witness for the amended C10 at `filter_order = -3`,
`block_size = -2`, identifier `FDLMS`. -/
theorem C10_witness :
    ∃ inst, select_algorithm (-3) 1 "FDLMS" (-2) = .ok inst :=
  C10_nonpositive_config_accepted (-3) 1 "FDLMS" (-2) (by decide) (by decide)
    (by simp [supportedAlgorithms])

end ANC
